import Mathlib

set_option linter.unusedVariables false

/-!
Verification development for the `pytorch_geometric_signed_directed` models
DIGRAC (directed clustering, `nn/directed/DIGRAC.py`) and SiGAT (signed
attention network, `nn/signed/SiGAT.py`).

The tensor code is shallowly embedded over the rationals.  External
numerical kernels that the repository only calls (the graph convolution
`Conv_Base`, `GATConv`, dropout masks, and the transcendental functions
`exp`, `log`, `sqrt` used by softmax / log-softmax / L2-normalization)
are abstract function parameters: every theorem below holds for an
arbitrary interpretation of those parameters (with explicitly stated
hypotheses such as positivity or strict monotonicity where needed).
-/

namespace SiGAT

/-- Adjacency maps: `defaultdict(set)` keyed by integer node ids becomes a
total function into finite sets, defaulting to the empty set. -/
def AdjMap : Type := ℤ → Finset ℤ

/-- `f[a].add(b)` on a `defaultdict(set)`. -/
def addTo (f : AdjMap) (a b : ℤ) : AdjMap :=
  Function.update f a (insert b (f a))

/-- The six base adjacency dictionaries built by the first loop of
`SiGAT.build_adj_lists` (source lines 134-154). -/
structure BaseAdj where
  pos_edgelist : AdjMap
  pos_out_edgelist : AdjMap
  pos_in_edgelist : AdjMap
  neg_edgelist : AdjMap
  neg_out_edgelist : AdjMap
  neg_in_edgelist : AdjMap

/-- All six dictionaries start empty. -/
def emptyAdj : BaseAdj :=
  ⟨fun _ => ∅, fun _ => ∅, fun _ => ∅, fun _ => ∅, fun _ => ∅, fun _ => ∅⟩

/-- One iteration of `for node_i, node_j, s in edge_index_s_list` in
`build_adj_lists`: under `s > 0` the positive dictionaries are updated,
under `s < 0` the negative ones (source lines 141-154). -/
def buildStep (st : BaseAdj) (e : ℤ × ℤ × ℤ) : BaseAdj :=
  let node_i := e.1
  let node_j := e.2.1
  let s := e.2.2
  let st1 :=
    if s > 0 then
      { st with
        pos_edgelist := addTo (addTo st.pos_edgelist node_i node_j) node_j node_i
        pos_out_edgelist := addTo st.pos_out_edgelist node_i node_j
        pos_in_edgelist := addTo st.pos_in_edgelist node_j node_i }
    else st
  if s < 0 then
    { st1 with
      neg_edgelist := addTo (addTo st1.neg_edgelist node_i node_j) node_j node_i
      neg_out_edgelist := addTo st1.neg_out_edgelist node_i node_j
      neg_in_edgelist := addTo st1.neg_in_edgelist node_j node_i }
  else st1

/-- The base adjacency dictionaries from a signed edge list
`[(node_i, node_j, s), ...]`. -/
def buildBase (l : List (ℤ × ℤ × ℤ)) : BaseAdj :=
  l.foldl buildStep emptyAdj

/-- `d1_1` of `get_tri_features` (source lines 93-94). -/
def d1_1 (pos_in pos_out neg_in neg_out : AdjMap) (u v : ℤ) : ℕ :=
  (pos_out u ∩ pos_in v).card

/-- `d1_2` of `get_tri_features` (source lines 95-96). -/
def d1_2 (pos_in pos_out neg_in neg_out : AdjMap) (u v : ℤ) : ℕ :=
  (pos_out u ∩ neg_in v).card

/-- `d1_3` of `get_tri_features` (source lines 97-98). -/
def d1_3 (pos_in pos_out neg_in neg_out : AdjMap) (u v : ℤ) : ℕ :=
  (neg_out u ∩ pos_in v).card

/-- `d1_4` of `get_tri_features` (source lines 99-100). -/
def d1_4 (pos_in pos_out neg_in neg_out : AdjMap) (u v : ℤ) : ℕ :=
  (neg_out u ∩ neg_in v).card

/-- `d2_1` of `get_tri_features` (source lines 102-103). -/
def d2_1 (pos_in pos_out neg_in neg_out : AdjMap) (u v : ℤ) : ℕ :=
  (pos_out u ∩ pos_out v).card

/-- `d2_2` of `get_tri_features` (source lines 104-105). -/
def d2_2 (pos_in pos_out neg_in neg_out : AdjMap) (u v : ℤ) : ℕ :=
  (pos_out u ∩ neg_out v).card

/-- `d2_3` of `get_tri_features` (source lines 106-107). -/
def d2_3 (pos_in pos_out neg_in neg_out : AdjMap) (u v : ℤ) : ℕ :=
  (neg_out u ∩ pos_out v).card

/-- `d2_4` of `get_tri_features` (source lines 108-109). -/
def d2_4 (pos_in pos_out neg_in neg_out : AdjMap) (u v : ℤ) : ℕ :=
  (neg_out u ∩ neg_out v).card

/-- `d3_1` of `get_tri_features` (source lines 111-112). -/
def d3_1 (pos_in pos_out neg_in neg_out : AdjMap) (u v : ℤ) : ℕ :=
  (pos_in u ∩ pos_out v).card

/-- `d3_2` of `get_tri_features` (source lines 113-114). -/
def d3_2 (pos_in pos_out neg_in neg_out : AdjMap) (u v : ℤ) : ℕ :=
  (pos_in u ∩ neg_out v).card

/-- `d3_3` of `get_tri_features` (source lines 115-116). -/
def d3_3 (pos_in pos_out neg_in neg_out : AdjMap) (u v : ℤ) : ℕ :=
  (neg_in u ∩ pos_out v).card

/-- `d3_4` of `get_tri_features` (source lines 117-118). -/
def d3_4 (pos_in pos_out neg_in neg_out : AdjMap) (u v : ℤ) : ℕ :=
  (neg_in u ∩ neg_out v).card

/-- `d4_1` of `get_tri_features` (source lines 120-121). -/
def d4_1 (pos_in pos_out neg_in neg_out : AdjMap) (u v : ℤ) : ℕ :=
  (pos_in u ∩ pos_in v).card

/-- `d4_2` of `get_tri_features` (source lines 122-123). -/
def d4_2 (pos_in pos_out neg_in neg_out : AdjMap) (u v : ℤ) : ℕ :=
  (pos_in u ∩ neg_in v).card

/-- `d4_3` of `get_tri_features` (source lines 124-125). -/
def d4_3 (pos_in pos_out neg_in neg_out : AdjMap) (u v : ℤ) : ℕ :=
  (neg_in u ∩ pos_in v).card

/-- `d4_4` of `get_tri_features` (source lines 126-127). -/
def d4_4 (pos_in pos_out neg_in neg_out : AdjMap) (u v : ℤ) : ℕ :=
  (neg_in u ∩ neg_in v).card

/-- `SiGAT.get_tri_features(u, v, r_edgelist)`: the 16 intersection counts
in the return order of source line 129.  `r_edgelist` is passed unpacked as
`(pos_in_edgelist, pos_out_edgelist, neg_in_edgelist, neg_out_edgelist)`,
matching source lines 91 and 159-160. -/
def get_tri_features (pos_in pos_out neg_in neg_out : AdjMap) (u v : ℤ) :
    Fin 16 → ℕ :=
  ![d1_1 pos_in pos_out neg_in neg_out u v,
    d1_2 pos_in pos_out neg_in neg_out u v,
    d1_3 pos_in pos_out neg_in neg_out u v,
    d1_4 pos_in pos_out neg_in neg_out u v,
    d2_1 pos_in pos_out neg_in neg_out u v,
    d2_2 pos_in pos_out neg_in neg_out u v,
    d2_3 pos_in pos_out neg_in neg_out u v,
    d2_4 pos_in pos_out neg_in neg_out u v,
    d3_1 pos_in pos_out neg_in neg_out u v,
    d3_2 pos_in pos_out neg_in neg_out u v,
    d3_3 pos_in pos_out neg_in neg_out u v,
    d3_4 pos_in pos_out neg_in neg_out u v,
    d4_1 pos_in pos_out neg_in neg_out u v,
    d4_2 pos_in pos_out neg_in neg_out u v,
    d4_3 pos_in pos_out neg_in neg_out u v,
    d4_4 pos_in pos_out neg_in neg_out u v]

/-- `get_tri_features` applied to the `r_edgelist` tuple of `b` (source
lines 159-160). -/
def triFeatures (b : BaseAdj) (u v : ℤ) : Fin 16 → ℕ :=
  get_tri_features b.pos_in_edgelist b.pos_out_edgelist
    b.neg_in_edgelist b.neg_out_edgelist u v

/-- The `k`-th of the 16 `adj_additions1` dictionaries: the loop at source
lines 164-169 puts `j` into `adj_additions1[k][i]` exactly for the pairs
`(i, j)` of `pos_out_edgelist` whose `k`-th triad count is positive. -/
def adj_additions1 (b : BaseAdj) (k : Fin 16) : AdjMap :=
  fun i => (b.pos_out_edgelist i).filter (fun j => 0 < triFeatures b i j k)

/-- The `k`-th of the 16 `adj_additions2` dictionaries (loop at source
lines 171-176, over `neg_out_edgelist`). -/
def adj_additions2 (b : BaseAdj) (k : Fin 16) : AdjMap :=
  fun i => (b.neg_out_edgelist i).filter (fun j => 0 < triFeatures b i j k)

/-- `SiGAT.build_adj_lists`: six base dictionaries followed by the 16
positive-source and 16 negative-source triadic additions (source
lines 179-180). -/
def build_adj_lists (l : List (ℤ × ℤ × ℤ)) : List AdjMap :=
  let b := buildBase l
  [b.pos_edgelist, b.pos_out_edgelist, b.pos_in_edgelist,
    b.neg_edgelist, b.neg_out_edgelist, b.neg_in_edgelist]
    ++ List.ofFn (adj_additions1 b) ++ List.ofFn (adj_additions2 b)

/-- `edge_index_s[edge_index_s[:, 2] > 0][:, :2]` (source line 41), kept as
a list of pairs. -/
def pos_edge_index (l : List (ℤ × ℤ × ℤ)) : List (ℤ × ℤ) :=
  (l.filter (fun e => e.2.2 > 0)).map (fun e => (e.1, e.2.1))

/-- `edge_index_s[edge_index_s[:, 2] < 0][:, :2]` (source line 42). -/
def neg_edge_index (l : List (ℤ × ℤ × ℤ)) : List (ℤ × ℤ) :=
  (l.filter (fun e => e.2.2 < 0)).map (fun e => (e.1, e.2.1))

/-- Per-node feature tables (`self.x` and intermediate activations). -/
def Feats : Type := ℤ → List ℚ

/-- The state of a constructed `SiGAT` module.  The attention layers
(`GATConv`), the MLP and the loss are external modules the repository only
calls; they are abstract function-valued fields. -/
structure Model where
  pos_edge_index : List (ℤ × ℤ)
  neg_edge_index : List (ℤ × ℤ)
  adj_lists : List AdjMap
  edge_lists : List (List (ℤ × ℤ))
  x : Feats
  aggs : List (Feats → List (ℤ × ℤ) → Feats)
  mlp_layer : Feats → Feats
  lsp_loss : Feats → List (ℤ × ℤ) → List (ℤ × ℤ) → ℚ

/-- `SiGAT.forward` (source lines 182-193): aggregate over every cached
edge list, concatenate with the raw table, apply the MLP.  The method
assigns no attribute, so the state it is evaluated against is returned
unchanged. -/
def forward (m : Model) : Feats × Model :=
  let neigh_feats := (m.edge_lists.zip m.aggs).map (fun p => p.2 m.x p.1)
  let combined := fun v => m.x v ++ (neigh_feats.map (fun f => f v)).flatten
  (m.mlp_layer combined, m)

/-- `SiGAT.loss` (source lines 195-198): a forward pass followed by the
link-sign-product loss on the cached signed edge indices. -/
def loss (m : Model) : ℚ × Model :=
  let zm := forward m
  (zm.2.lsp_loss zm.1 zm.2.pos_edge_index zm.2.neg_edge_index, zm.2)

/-- One public call on a constructed model. -/
inductive Call
  | forwardCall
  | lossCall

/-- Run a sequence of `forward` / `loss` calls, threading the state. -/
def runCalls : List Call → Model → Model
  | [], m => m
  | Call.forwardCall :: rest, m => runCalls rest (forward m).2
  | Call.lossCall :: rest, m => runCalls rest (loss m).2

end SiGAT

namespace DIGRAC

/-- Dense rational matrices, one row per node. -/
abbrev Mat (n m : ℕ) : Type := Fin n → Fin m → ℚ

/-- `torch.mm`. -/
def mmQ {n m p : ℕ} (A : Mat n m) (B : Mat m p) : Mat n p :=
  fun i j => ∑ k, A i k * B k j

/-- Elementwise `torch.nn.ReLU`. -/
def reluM {n m : ℕ} (A : Mat n m) : Mat n m :=
  fun i j => max (A i j) 0

/-- `edge_index[[1, 0]]` (DIGRAC.py line 49): swap the two rows of the
edge-index tensor. -/
def revEdgeIndex {E : ℕ} (ei : Fin 2 → Fin E → ℕ) : Fin 2 → Fin E → ℕ :=
  fun r => ei (1 - r)

/-- Loop state of `DIMPA.forward` (source lines 45-54):
`feat_s, feat_t, curr_s, curr_t`. -/
structure DimpaState (n d : ℕ) where
  feat_s : Mat n d
  feat_t : Mat n d
  curr_s : Mat n d
  curr_t : Mat n d

/-- The `conv_layer` module (`Conv_Base`, external to the two source
files) as an abstract function of features, edge index and edge weights. -/
abbrev ConvFun (n d E : ℕ) : Type :=
  Mat n d → (Fin 2 → Fin E → ℕ) → (Fin E → ℚ) → Mat n d

/-- State of the `for h in range(1, 1 + hop)` loop of `DIMPA.forward`
after `h` iterations; `h = 0` is the initialization at source
lines 45-48. -/
def dimpaGo {n d E : ℕ} (conv : ConvFun n d E)
    (ei ei_t : Fin 2 → Fin E → ℕ) (ew : Fin E → ℚ)
    (w_s w_t : ℕ → ℚ) (x_s x_t : Mat n d) : ℕ → DimpaState n d
  | 0 => ⟨w_s 0 • x_s, w_t 0 • x_t, x_s, x_t⟩
  | h + 1 =>
    let st := dimpaGo conv ei ei_t ew w_s w_t x_s x_t h
    let cs := conv st.curr_s ei ew
    let ct := conv st.curr_t ei_t ew
    ⟨st.feat_s + w_s (h + 1) • cs, st.feat_t + w_t (h + 1) • ct, cs, ct⟩

/-- `DIMPA.forward` (source lines 31-58): run the loop `hop` times and
concatenate `feat_s` and `feat_t` along the column dimension. -/
def dimpaForward {n d E : ℕ} (conv : ConvFun n d E) (hop : ℕ)
    (w_s w_t : ℕ → ℚ) (x_s x_t : Mat n d)
    (ei : Fin 2 → Fin E → ℕ) (ew : Fin E → ℚ) : Mat n (d + d) :=
  let ei_t := revEdgeIndex ei
  let st := dimpaGo conv ei ei_t ew w_s w_t x_s x_t hop
  fun i => Fin.append (st.feat_s i) (st.feat_t i)

/-- One propagation step: the convolution layer applied along a fixed edge
index and weight vector. -/
def convStep {n d E : ℕ} (conv : ConvFun n d E)
    (ei : Fin 2 → Fin E → ℕ) (ew : Fin E → ℚ) : Mat n d → Mat n d :=
  fun x => conv x ei ew

/-- Accumulator loop behind `torch.argmax(·, dim=1)` on one row: scan the
indices in order, keeping the first index attaining the running maximum. -/
def argmaxAcc {K : ℕ} (f : Fin K → ℚ) :
    List (Fin K) → Option (Fin K) → Option (Fin K)
  | [], acc => acc
  | j :: rest, none => argmaxAcc f rest (some j)
  | j :: rest, some b => argmaxAcc f rest (if f b < f j then some j else some b)

/-- `torch.argmax` over one row: index of the first maximal entry
(`0` for an empty row). -/
def argmaxFirst {K : ℕ} (f : Fin K → ℚ) : ℕ :=
  (argmaxAcc f (List.finRange K) none).elim 0 Fin.val

/-- `F.softmax(x, dim=1)` with an abstract exponential `e`. -/
def softmaxRows {n K : ℕ} (e : ℚ → ℚ) (x : Mat n K) : Mat n K :=
  fun i j => e (x i j) / ∑ k, e (x i k)

/-- `F.log_softmax(x, dim=1)` with abstract exponential `e` and
logarithm `lg`: `x i j - lg (Σ_k e (x i k))`. -/
def logSoftmaxRows {n K : ℕ} (lg e : ℚ → ℚ) (x : Mat n K) : Mat n K :=
  fun i j => x i j - lg (∑ k, e (x i k))

/-- `F.normalize(z)` (p = 2, dim = 1, eps = 1e-12) with an abstract square
root `sq`: each row divided by `max (sq (Σ_k z i k ^ 2)) 1e-12`. -/
def normalizeRows {n d : ℕ} (sq : ℚ → ℚ) (z : Mat n d) : Mat n d :=
  fun i j => z i j / max (sq (∑ k, z i k * z i k)) (1 / 10 ^ 12)

/-- Trainable parameters of a `DIGRAC` module (`nfeat = F0`,
`nh1 = nh2 = hd`, `nclass = K`); `w_s`/`w_t` are the per-hop scalar
weights of the inner `DIMPA`. -/
structure Params (F0 hd K : ℕ) where
  w_s0 : Mat F0 hd
  w_s1 : Mat hd hd
  w_t0 : Mat F0 hd
  w_t1 : Mat hd hd
  hop : ℕ
  w_s : ℕ → ℚ
  w_t : ℕ → ℚ
  W_prob : Mat (hd + hd) K
  bias : Fin K → ℚ

/-- External operations a `DIGRAC` forward pass invokes: the graph
convolution, the two (stochastic) dropout applications, and the
transcendental functions of softmax / log-softmax / normalize. -/
structure Ops (n hd E : ℕ) where
  conv : ConvFun n hd E
  dropS : Mat n hd → Mat n hd
  dropT : Mat n hd → Mat n hd
  exp : ℚ → ℚ
  log : ℚ → ℚ
  sq : ℚ → ℚ

/-- Source-role MLP branch of `DIGRAC.forward` (source lines 117-120):
linear, ReLU, dropout, linear. -/
def mlpS {F0 hd K n E : ℕ} (p : Params F0 hd K) (ops : Ops n hd E)
    (features : Mat n F0) : Mat n hd :=
  mmQ (ops.dropS (reluM (mmQ features p.w_s0))) p.w_s1

/-- Target-role MLP branch of `DIGRAC.forward` (source lines 122-125). -/
def mlpT {F0 hd K n E : ℕ} (p : Params F0 hd K) (ops : Ops n hd E)
    (features : Mat n F0) : Mat n hd :=
  mmQ (ops.dropT (reluM (mmQ features p.w_t0))) p.w_t1

/-- The DIMPA embedding `z` computed inside `DIGRAC.forward` (source
line 127). -/
def zEmb {F0 hd K n E : ℕ} (p : Params F0 hd K) (ops : Ops n hd E)
    (ei : Fin 2 → Fin E → ℕ) (ew : Fin E → ℚ) (features : Mat n F0) :
    Mat n (hd + hd) :=
  dimpaForward ops.conv p.hop p.w_s p.w_t
    (mlpS p ops features) (mlpT p ops features) ei ew

/-- The cluster logits `z @ W_prob + bias` (source lines 129-130). -/
def logits {F0 hd K n E : ℕ} (p : Params F0 hd K) (ops : Ops n hd E)
    (ei : Fin 2 → Fin E → ℕ) (ew : Fin E → ℚ) (features : Mat n F0) :
    Mat n K :=
  fun i j => mmQ (zEmb p ops ei ew features) p.W_prob i j + p.bias j

/-- `DIGRAC.forward` (source lines 101-138), translated statement by
statement; the two dropout call sites get independent abstract functions
because the module draws an independent random mask at each call. -/
def forward {F0 hd K n E : ℕ} (p : Params F0 hd K) (ops : Ops n hd E)
    (ei : Fin 2 → Fin E → ℕ) (ew : Fin E → ℚ) (features : Mat n F0) :
    Mat n (hd + hd) × Mat n K × (Fin n → ℕ) × Mat n K :=
  let x_s := mmQ features p.w_s0
  let x_s := reluM x_s
  let x_s := ops.dropS x_s
  let x_s := mmQ x_s p.w_s1
  let x_t := mmQ features p.w_t0
  let x_t := reluM x_t
  let x_t := ops.dropT x_t
  let x_t := mmQ x_t p.w_t1
  let z := dimpaForward ops.conv p.hop p.w_s p.w_t x_s x_t ei ew
  let output := mmQ z p.W_prob
  let output := fun i j => output i j + p.bias j
  let predictions_cluster := fun i => argmaxFirst (output i)
  let prob := softmaxRows ops.exp output
  let output := logSoftmaxRows ops.log ops.exp output
  (normalizeRows ops.sq z, output, predictions_cluster, prob)

end DIGRAC

/-- Signed edge list used for concrete witnesses: three positive edges
`0 → 1`, `0 → 2`, `1 → 2`. -/
def exEdges : List (ℤ × ℤ × ℤ) := [(0, 1, 1), (0, 2, 1), (1, 2, 1)]

lemma sigat_buildStep_zero (st : SiGAT.BaseAdj) (u v : ℤ) :
    SiGAT.buildStep st (u, v, 0) = st := rfl

lemma sigat_runCalls_eq (calls : List SiGAT.Call) (m : SiGAT.Model) :
    SiGAT.runCalls calls m = m := by
  induction calls with
  | nil => rfl
  | cons c rest ih => cases c <;> exact ih

/-- C3: membership in the `k`-th triadic addition derived by
`SiGAT.build_adj_lists` holds exactly for the pairs of the corresponding
out-edge view whose `k`-th `get_tri_features` count is strictly positive:
the first 16 subsets refine the positive out-edges, the second 16 the
negative out-edges. -/
theorem sigat_triadic_membership_iff :
    ∀ (l : List (ℤ × ℤ × ℤ)) (k : Fin 16) (u v : ℤ),
      (v ∈ SiGAT.adj_additions1 (SiGAT.buildBase l) k u ↔
        v ∈ (SiGAT.buildBase l).pos_out_edgelist u ∧
          0 < SiGAT.triFeatures (SiGAT.buildBase l) u v k)
      ∧ (v ∈ SiGAT.adj_additions2 (SiGAT.buildBase l) k u ↔
        v ∈ (SiGAT.buildBase l).neg_out_edgelist u ∧
          0 < SiGAT.triFeatures (SiGAT.buildBase l) u v k) := by
  intro l k u v
  constructor <;>
    simp [SiGAT.adj_additions1, SiGAT.adj_additions2, Finset.mem_filter]

/-- C4, counterexample: `build_adj_lists` returns 38 adjacency views, not
the 22 (base views plus exactly 16 triadic subsets) the claim describes,
nor 20. -/
theorem sigat_adj_lists_sixteen_cex :
    (SiGAT.build_adj_lists exEdges).length = 38 ∧
      (SiGAT.build_adj_lists exEdges).length ≠ 22 ∧
      (SiGAT.build_adj_lists exEdges).length ≠ 20 := by
  refine ⟨?_, ?_, ?_⟩ <;> simp [SiGAT.build_adj_lists]

/-- C4, amended: `build_adj_lists` returns the six base views (positive
undirected, positive-out, positive-in, negative undirected, negative-out,
negative-in) followed by exactly 32 triad-derived subsets — 16 from
positive-source edges and 16 from negative-source edges — for a total of
38 cached adjacency views. -/
theorem sigat_adj_lists_structure :
    ∀ (l : List (ℤ × ℤ × ℤ)),
      SiGAT.build_adj_lists l =
        [(SiGAT.buildBase l).pos_edgelist,
          (SiGAT.buildBase l).pos_out_edgelist,
          (SiGAT.buildBase l).pos_in_edgelist,
          (SiGAT.buildBase l).neg_edgelist,
          (SiGAT.buildBase l).neg_out_edgelist,
          (SiGAT.buildBase l).neg_in_edgelist]
          ++ List.ofFn (SiGAT.adj_additions1 (SiGAT.buildBase l))
          ++ List.ofFn (SiGAT.adj_additions2 (SiGAT.buildBase l))
      ∧ (SiGAT.build_adj_lists l).length = 38 := by
  intro l
  exact ⟨rfl, by simp [SiGAT.build_adj_lists]⟩

/-- C5: the triad counts are symmetric under swapping `u` and `v` together
with swapping which base direction/sign pair is queried: the `d1` block at
`(u, v)` equals the `d3` block at `(v, u)` with its two mixed-sign entries
exchanged, and inside the `d2` and `d4` blocks swapping `u` and `v`
exchanges the two mixed-sign entries and fixes the two same-sign ones. -/
theorem sigat_tri_features_symm :
    ∀ (pi po ni no : SiGAT.AdjMap) (u v : ℤ),
      SiGAT.d1_1 pi po ni no u v = SiGAT.d3_1 pi po ni no v u
      ∧ SiGAT.d1_2 pi po ni no u v = SiGAT.d3_3 pi po ni no v u
      ∧ SiGAT.d1_3 pi po ni no u v = SiGAT.d3_2 pi po ni no v u
      ∧ SiGAT.d1_4 pi po ni no u v = SiGAT.d3_4 pi po ni no v u
      ∧ SiGAT.d2_1 pi po ni no u v = SiGAT.d2_1 pi po ni no v u
      ∧ SiGAT.d2_2 pi po ni no u v = SiGAT.d2_3 pi po ni no v u
      ∧ SiGAT.d2_3 pi po ni no u v = SiGAT.d2_2 pi po ni no v u
      ∧ SiGAT.d2_4 pi po ni no u v = SiGAT.d2_4 pi po ni no v u
      ∧ SiGAT.d4_1 pi po ni no u v = SiGAT.d4_1 pi po ni no v u
      ∧ SiGAT.d4_2 pi po ni no u v = SiGAT.d4_3 pi po ni no v u
      ∧ SiGAT.d4_3 pi po ni no u v = SiGAT.d4_2 pi po ni no v u
      ∧ SiGAT.d4_4 pi po ni no u v = SiGAT.d4_4 pi po ni no v u := by
  intro pi po ni no u v
  simp only [SiGAT.d1_1, SiGAT.d1_2, SiGAT.d1_3, SiGAT.d1_4,
    SiGAT.d2_1, SiGAT.d2_2, SiGAT.d2_3, SiGAT.d2_4,
    SiGAT.d3_1, SiGAT.d3_2, SiGAT.d3_3, SiGAT.d3_4,
    SiGAT.d4_1, SiGAT.d4_2, SiGAT.d4_3, SiGAT.d4_4]
  refine ⟨?_, ?_, ?_, ?_, ?_, ?_, ?_, ?_, ?_, ?_, ?_, ?_⟩ <;>
    rw [Finset.inter_comm]

/-- C8: any sequence of `forward` and `loss` calls leaves the cached
adjacency data — `adj_lists`, `edge_lists`, `pos_edge_index`,
`neg_edge_index` — equal to its construction-time value. -/
theorem sigat_cached_adj_immutable :
    ∀ (calls : List SiGAT.Call) (m : SiGAT.Model),
      (SiGAT.runCalls calls m).adj_lists = m.adj_lists
      ∧ (SiGAT.runCalls calls m).edge_lists = m.edge_lists
      ∧ (SiGAT.runCalls calls m).pos_edge_index = m.pos_edge_index
      ∧ (SiGAT.runCalls calls m).neg_edge_index = m.neg_edge_index := by
  intro calls m
  rw [sigat_runCalls_eq]
  exact ⟨rfl, rfl, rfl, rfl⟩

/-- C9: a signed edge whose sign entry is exactly `0` is dropped
everywhere: removing it changes neither `pos_edge_index` nor
`neg_edge_index` nor any adjacency list built by `build_adj_lists`. -/
theorem sigat_zero_sign_dropped :
    ∀ (l1 l2 : List (ℤ × ℤ × ℤ)) (u v : ℤ),
      SiGAT.pos_edge_index (l1 ++ (u, v, 0) :: l2) =
        SiGAT.pos_edge_index (l1 ++ l2)
      ∧ SiGAT.neg_edge_index (l1 ++ (u, v, 0) :: l2) =
        SiGAT.neg_edge_index (l1 ++ l2)
      ∧ SiGAT.build_adj_lists (l1 ++ (u, v, 0) :: l2) =
        SiGAT.build_adj_lists (l1 ++ l2) := by
  intro l1 l2 u v
  have hb : SiGAT.buildBase (l1 ++ (u, v, 0) :: l2) =
      SiGAT.buildBase (l1 ++ l2) := by
    simp [SiGAT.buildBase, List.foldl_append, List.foldl_cons,
      sigat_buildStep_zero]
  refine ⟨?_, ?_, ?_⟩
  · simp [SiGAT.pos_edge_index, List.filter_append]
  · simp [SiGAT.neg_edge_index, List.filter_append]
  · simp [SiGAT.build_adj_lists, hb]

/-- C10: every triadic addition is a sub-relation of its base out-edge
view: membership in one of the first 16 derived subsets implies membership
in `pos_out_edgelist`, and in one of the last 16 implies membership in
`neg_out_edgelist`. -/
theorem sigat_triadic_subrelation :
    ∀ (l : List (ℤ × ℤ × ℤ)) (k : Fin 16) (u v : ℤ),
      (v ∈ SiGAT.adj_additions1 (SiGAT.buildBase l) k u →
        v ∈ (SiGAT.buildBase l).pos_out_edgelist u)
      ∧ (v ∈ SiGAT.adj_additions2 (SiGAT.buildBase l) k u →
        v ∈ (SiGAT.buildBase l).neg_out_edgelist u) := by
  intro l k u v
  exact ⟨fun h => Finset.mem_of_mem_filter v h,
    fun h => Finset.mem_of_mem_filter v h⟩

/-- Witness for C10 at a concrete graph: on `exEdges`, node `1` lies in
triadic subset `4` (the `d2_1` count) out of node `0`, and the theorem
places the pair inside the positive out-edge view. -/
theorem sigat_triadic_subrelation_witness :
    (1 : ℤ) ∈ (SiGAT.buildBase exEdges).pos_out_edgelist 0 :=
  (sigat_triadic_subrelation exEdges 4 0 1).1 (by decide)

lemma digrac_dimpaGo_spec {n d E : ℕ} (conv : DIGRAC.ConvFun n d E)
    (ei ei_t : Fin 2 → Fin E → ℕ) (ew : Fin E → ℚ) (w_s w_t : ℕ → ℚ)
    (x_s x_t : DIGRAC.Mat n d) :
    ∀ h : ℕ,
      DIGRAC.dimpaGo conv ei ei_t ew w_s w_t x_s x_t h =
        ⟨∑ t in Finset.range (h + 1),
            w_s t • (DIGRAC.convStep conv ei ew)^[t] x_s,
          ∑ t in Finset.range (h + 1),
            w_t t • (DIGRAC.convStep conv ei_t ew)^[t] x_t,
          (DIGRAC.convStep conv ei ew)^[h] x_s,
          (DIGRAC.convStep conv ei_t ew)^[h] x_t⟩ := by
  intro h
  induction h with
  | zero => simp [DIGRAC.dimpaGo]
  | succ h ih =>
    simp only [DIGRAC.dimpaGo, ih, DIGRAC.DimpaState.mk.injEq]
    refine ⟨?_, ?_, ?_, ?_⟩
    · rw [Finset.sum_range_succ
        (fun t => w_s t • (DIGRAC.convStep conv ei ew)^[t] x_s) (h + 1),
        Function.iterate_succ_apply']
      rfl
    · rw [Finset.sum_range_succ
        (fun t => w_t t • (DIGRAC.convStep conv ei_t ew)^[t] x_t) (h + 1),
        Function.iterate_succ_apply']
      rfl
    · rw [Function.iterate_succ_apply']
      rfl
    · rw [Function.iterate_succ_apply']
      rfl

lemma digrac_argmaxAcc_congr {K : ℕ} (f g : Fin K → ℚ)
    (hiff : ∀ j k : Fin K, f j < f k ↔ g j < g k) :
    ∀ (l : List (Fin K)) (acc : Option (Fin K)),
      DIGRAC.argmaxAcc f l acc = DIGRAC.argmaxAcc g l acc := by
  intro l
  induction l with
  | nil => intro acc; rfl
  | cons j rest ih =>
    intro acc
    cases acc with
    | none => exact ih _
    | some b =>
      simp only [DIGRAC.argmaxAcc]
      rw [if_congr (hiff b j) rfl rfl]
      exact ih _

lemma digrac_argmaxFirst_congr {K : ℕ} (f g : Fin K → ℚ)
    (hiff : ∀ j k : Fin K, f j < f k ↔ g j < g k) :
    DIGRAC.argmaxFirst f = DIGRAC.argmaxFirst g := by
  unfold DIGRAC.argmaxFirst
  rw [digrac_argmaxAcc_congr f g hiff]

/-- C2: `DIMPA.forward` concatenates, column-wise, the weighted sums over
hops `0..H` of the iterated convolution of `x_s` along `edge_index` and of
`x_t` along the row-swapped (reversed) edge index; the result has `d + d`
columns for inputs with `d` columns. -/
theorem dimpa_forward_hop_sum :
    ∀ {n d E : ℕ} (conv : DIGRAC.ConvFun n d E) (hop : ℕ)
      (w_s w_t : ℕ → ℚ) (x_s x_t : DIGRAC.Mat n d)
      (ei : Fin 2 → Fin E → ℕ) (ew : Fin E → ℚ),
      DIGRAC.dimpaForward conv hop w_s w_t x_s x_t ei ew =
        fun i => Fin.append
          ((∑ t in Finset.range (hop + 1),
              w_s t • (DIGRAC.convStep conv ei ew)^[t] x_s) i)
          ((∑ t in Finset.range (hop + 1),
              w_t t •
                (DIGRAC.convStep conv (DIGRAC.revEdgeIndex ei) ew)^[t] x_t) i) := by
  intro n d E conv hop w_s w_t x_s x_t ei ew
  simp only [DIGRAC.dimpaForward]
  rw [digrac_dimpaGo_spec]

/-- C1: `DIGRAC.forward` returns the 4-tuple of the row-wise
L2-normalized DIMPA embedding, the row-wise log-softmax of the logits
`z @ W_prob + bias`, the per-row arg-max of those logits, and the row-wise
softmax of the same logits. -/
theorem digrac_forward_components :
    ∀ {F0 hd K n E : ℕ} (p : DIGRAC.Params F0 hd K) (ops : DIGRAC.Ops n hd E)
      (ei : Fin 2 → Fin E → ℕ) (ew : Fin E → ℚ) (features : DIGRAC.Mat n F0),
      DIGRAC.forward p ops ei ew features =
        (DIGRAC.normalizeRows ops.sq (DIGRAC.zEmb p ops ei ew features),
          DIGRAC.logSoftmaxRows ops.log ops.exp
            (DIGRAC.logits p ops ei ew features),
          fun i => DIGRAC.argmaxFirst (DIGRAC.logits p ops ei ew features i),
          DIGRAC.softmaxRows ops.exp (DIGRAC.logits p ops ei ew features)) := by
  intro F0 hd K n E p ops ei ew features
  rfl

/-- C6: for every node, the predicted cluster (arg-max over the logits
row) equals the arg-max of that node's softmax probability row, provided
the abstract exponential is positive and strictly monotone on the values
of that logits row. -/
theorem digrac_pred_eq_argmax_prob :
    ∀ {F0 hd K n E : ℕ} (p : DIGRAC.Params F0 hd K) (ops : DIGRAC.Ops n hd E)
      (ei : Fin 2 → Fin E → ℕ) (ew : Fin E → ℚ) (features : DIGRAC.Mat n F0)
      (i : Fin n),
      (∀ j : Fin K, 0 < ops.exp (DIGRAC.logits p ops ei ew features i j)) →
      (∀ j k : Fin K,
        DIGRAC.logits p ops ei ew features i j <
            DIGRAC.logits p ops ei ew features i k →
          ops.exp (DIGRAC.logits p ops ei ew features i j) <
            ops.exp (DIGRAC.logits p ops ei ew features i k)) →
      (DIGRAC.forward p ops ei ew features).2.2.1 i =
        DIGRAC.argmaxFirst
          (fun j => (DIGRAC.forward p ops ei ew features).2.2.2 i j) := by
  intro F0 hd K n E p ops ei ew features i hpos hmono
  have hfwd1 : (DIGRAC.forward p ops ei ew features).2.2.1 i =
      DIGRAC.argmaxFirst (DIGRAC.logits p ops ei ew features i) := rfl
  have hfwd2 : (fun j => (DIGRAC.forward p ops ei ew features).2.2.2 i j) =
      fun j => DIGRAC.softmaxRows ops.exp
        (DIGRAC.logits p ops ei ew features) i j := rfl
  rw [hfwd1, hfwd2]
  apply digrac_argmaxFirst_congr
  intro j k
  have hS : 0 < ∑ m, ops.exp (DIGRAC.logits p ops ei ew features i m) :=
    Finset.sum_pos (fun m _ => hpos m) ⟨j, Finset.mem_univ j⟩
  simp only [DIGRAC.softmaxRows]
  rw [div_lt_div_iff_of_pos_right hS]
  constructor
  · exact hmono j k
  · intro he
    rcases lt_trichotomy (DIGRAC.logits p ops ei ew features i j)
        (DIGRAC.logits p ops ei ew features i k) with h | h | h
    · exact h
    · rw [h] at he
      exact absurd he (lt_irrefl _)
    · exact absurd he (not_lt.mpr (le_of_lt (hmono k j h)))

/-- C7: every row of the probability matrix returned by `DIGRAC.forward`
sums to `1`, provided there is at least one cluster and the abstract
exponential is everywhere positive. -/
theorem digrac_prob_row_sums_one :
    ∀ {F0 hd K n E : ℕ} (p : DIGRAC.Params F0 hd K) (ops : DIGRAC.Ops n hd E)
      (ei : Fin 2 → Fin E → ℕ) (ew : Fin E → ℚ) (features : DIGRAC.Mat n F0)
      (i : Fin n),
      0 < K → (∀ a : ℚ, 0 < ops.exp a) →
      ∑ j, (DIGRAC.forward p ops ei ew features).2.2.2 i j = 1 := by
  intro F0 hd K n E p ops ei ew features i hK hpos
  have hfwd : (DIGRAC.forward p ops ei ew features).2.2.2 =
      DIGRAC.softmaxRows ops.exp (DIGRAC.logits p ops ei ew features) := rfl
  rw [hfwd]
  simp only [DIGRAC.softmaxRows]
  rw [← Finset.sum_div]
  apply div_self
  have hne : (Finset.univ : Finset (Fin K)).Nonempty :=
    ⟨⟨0, hK⟩, Finset.mem_univ _⟩
  exact ne_of_gt (Finset.sum_pos (fun m _ => hpos _) hne)

/-- Concrete DIGRAC parameters for witnesses: one feature, hidden size
one, two clusters, all MLP and hop weights `1`, `W_prob i j = i + j`,
zero bias, zero hops. -/
def exParams : DIGRAC.Params 1 1 2 :=
  ⟨fun _ _ => 1, fun _ _ => 1, fun _ _ => 1, fun _ _ => 1, 0,
    fun _ => 1, fun _ => 1, fun i j => ((i : ℕ) : ℚ) + ((j : ℕ) : ℚ),
    fun _ => 0⟩

/-- Concrete operations for witnesses: identity convolution and dropout,
`exp a = a + 10`, identity log and square root. -/
def exOps : DIGRAC.Ops 1 1 0 :=
  ⟨fun x _ _ => x, id, id, fun a => a + 10, id, id⟩

/-- Concrete operations with the constant-one (hence everywhere positive)
exponential. -/
def exOpsOne : DIGRAC.Ops 1 1 0 :=
  ⟨fun x _ _ => x, id, id, fun _ => 1, id, id⟩

/-- Empty edge index on zero edges. -/
def exEi : Fin 2 → Fin 0 → ℕ := fun _ j => j.elim0

/-- Empty edge weights on zero edges. -/
def exEw : Fin 0 → ℚ := fun j => j.elim0

/-- Constant-one feature matrix on one node. -/
def exFeat : DIGRAC.Mat 1 1 := fun _ _ => 1

/-- Witness for C6 at a concrete instance: positivity and monotonicity of
`exp a = a + 10` on the logits row hold by evaluation, and the theorem
identifies the two arg-maxes. -/
theorem digrac_pred_eq_argmax_prob_witness :
    (DIGRAC.forward exParams exOps exEi exEw exFeat).2.2.1 0 =
      DIGRAC.argmaxFirst
        (fun j => (DIGRAC.forward exParams exOps exEi exEw exFeat).2.2.2 0 j) :=
  digrac_pred_eq_argmax_prob exParams exOps exEi exEw exFeat 0
    (by with_unfolding_all decide) (by with_unfolding_all decide)

/-- Witness for C7 at a concrete instance: two clusters and the
constant-one exponential, which is everywhere positive. -/
theorem digrac_prob_row_sums_one_witness :
    ∑ j, (DIGRAC.forward exParams exOpsOne exEi exEw exFeat).2.2.2 0 j = 1 :=
  digrac_prob_row_sums_one exParams exOpsOne exEi exEw exFeat 0
    (by decide) (fun a => one_pos)
